import Mathlib

/-!
Verification of the nutrition-app repository's core behaviours: the
meal-plan item status handler and dashboard groupings (KitchenDashboard),
the menu-selection handlers, the send-to-kitchen guard and the result
rendering (App.tsx), and the nutrition aggregator (modelled from the spec
where the backend source is absent).  Quantities and nutrient amounts are
embedded as rationals; fallible operations return `Except`/`Option`.
-/

/-- A patient reference as carried by a meal plan (KitchenDashboard `MealPlan.patient`). -/
structure Patient where
  id : Nat
  hospital_id : String
  name : String
  age : Nat
  sex : String
deriving Repr, DecidableEq

/-- One meal-plan item (KitchenDashboard `MealPlanItem`): a food line with the
two kitchen status flags. -/
structure MealPlanItem where
  id : Nat
  meal_category : String
  food_name : String
  quantity : ℚ
  prepared : Bool
  delivered : Bool
deriving Repr, DecidableEq

/-- A meal plan (KitchenDashboard `MealPlan`): the patient reference is
nullable (the patient may have been deleted after plan creation). -/
structure MealPlan where
  id : Nat
  timestamp : String
  patient : Option Patient
  items : List MealPlanItem
deriving Repr, DecidableEq

/-- The field named in a PATCH status update (`type: 'prepared' | 'delivered'`
in `handleStatusChange`). -/
inductive StatusField where
  | prepared
  | delivered
deriving Repr, DecidableEq

/-- The item update `handleStatusChange` applies on a successful PATCH:
`{ ...item, [type]: newStatus }` — exactly the named flag is replaced. -/
def applyStatus (field : StatusField) (newStatus : Bool) (item : MealPlanItem) :
    MealPlanItem :=
  match field with
  | .prepared => { item with prepared := newStatus }
  | .delivered => { item with delivered := newStatus }

/-- The state update of `handleStatusChange` over the plan list:
`plans.map(plan => ({ ...plan, items: plan.items.map(item => item.id === itemId ? { ...item, [type]: newStatus } : item) }))`. -/
def handleStatusChange (itemId : Nat) (field : StatusField) (newStatus : Bool)
    (plans : List MealPlan) : List MealPlan :=
  plans.map fun plan =>
    { plan with
      items := plan.items.map fun item =>
        if item.id = itemId then applyStatus field newStatus item else item }

/-- `markPrepared` of the spec: the prepared=true update of `handleStatusChange`. -/
def markPrepared (item : MealPlanItem) : MealPlanItem :=
  applyStatus .prepared true item

/-- A freshly created item: Pending (both flags false). -/
def pendingItem : MealPlanItem :=
  { id := 1, meal_category := "Breakfast", food_name := "Rice", quantity := 2,
    prepared := false, delivered := false }

/-- A plan holding just `pendingItem`, used to evaluate `handleStatusChange`. -/
def pendingPlan : MealPlan :=
  { id := 10, timestamp := "2024-01-01T08:00:00", patient := none, items := [pendingItem] }

/-- C1 counterexample: applying a delivered=true update to a Pending item via
`handleStatusChange` yields prepared == false and delivered == true — the
claimed auto-promotion of `prepared` does not happen, and the state
`delivered ∧ ¬prepared` is reachable. -/
theorem C1_delivered_pending_counterexample :
    handleStatusChange 1 StatusField.delivered true [pendingPlan]
      = [{ pendingPlan with items := [{ pendingItem with delivered := true }] }] ∧
    ({ pendingItem with delivered := true }).prepared = false ∧
    ({ pendingItem with delivered := true }).delivered = true := by
  refine ⟨?_, rfl, rfl⟩
  simp [handleStatusChange, pendingPlan, pendingItem, applyStatus]

/-- C1 (amended): a status update sets exactly the flag named in the PATCH and
leaves the other flag unchanged; in particular a delivered=true update on a
Pending item yields prepared == false and delivered == true, so the handler
does not enforce the delivered-implies-prepared invariant. -/
theorem C1_status_update_sets_only_named_flag (item : MealPlanItem) (b : Bool) :
    (applyStatus StatusField.delivered b item).prepared = item.prepared ∧
    (applyStatus StatusField.delivered b item).delivered = b ∧
    (applyStatus StatusField.prepared b item).delivered = item.delivered ∧
    (applyStatus StatusField.prepared b item).prepared = b := by
  refine ⟨rfl, rfl, rfl, rfl⟩

/-- C7: `markPrepared` is idempotent, and on an already-Prepared item it is a
no-op (the state is returned unchanged, no error path exists). -/
theorem C7_markPrepared_idempotent (item : MealPlanItem) :
    markPrepared (markPrepared item) = markPrepared item ∧
    (item.prepared = true → markPrepared item = item) := by
  constructor
  · rfl
  · intro h
    cases item
    simp_all [markPrepared, applyStatus]

/-- C7 witness: evaluating idempotence and the no-op on concrete items. -/
theorem C7_markPrepared_idempotent_witness :
    markPrepared (markPrepared pendingItem) = markPrepared pendingItem ∧
    markPrepared (markPrepared { pendingItem with prepared := true })
      = { pendingItem with prepared := true } := by
  refine ⟨(C7_markPrepared_idempotent pendingItem).1, ?_⟩
  have h := (C7_markPrepared_idempotent { pendingItem with prepared := true }).2 rfl
  calc markPrepared (markPrepared { pendingItem with prepared := true })
      = markPrepared { pendingItem with prepared := true } :=
        (C7_markPrepared_idempotent { pendingItem with prepared := true }).1
    _ = { pendingItem with prepared := true } := h

/-- A summary line of the kitchen dashboard (`{ planId, mealCategory, foodName }`
as built in `DashboardSummary`). -/
structure SummaryEntry where
  planId : Nat
  mealCategory : String
  foodName : String
deriving Repr, DecidableEq

/-- The projection `DashboardSummary` applies to each item. -/
def summaryEntry (plan : MealPlan) (item : MealPlanItem) : SummaryEntry :=
  { planId := plan.id, mealCategory := item.meal_category, foodName := item.food_name }

/-- `preparedItems` of `DashboardSummary`:
`mealPlans.flatMap(plan => plan.items.filter(item => item.prepared).map(...))`. -/
def preparedItems (mealPlans : List MealPlan) : List SummaryEntry :=
  mealPlans.flatMap fun plan =>
    (plan.items.filter fun item => item.prepared).map (summaryEntry plan)

/-- `deliveredItems` of `DashboardSummary`. -/
def deliveredItems (mealPlans : List MealPlan) : List SummaryEntry :=
  mealPlans.flatMap fun plan =>
    (plan.items.filter fun item => item.delivered).map (summaryEntry plan)

/-- `unpreparedItems` of `DashboardSummary` (filter `!item.prepared`). -/
def unpreparedItems (mealPlans : List MealPlan) : List SummaryEntry :=
  mealPlans.flatMap fun plan =>
    (plan.items.filter fun item => !item.prepared).map (summaryEntry plan)

/-- `notDeliveredItems` of `DashboardSummary` (filter `!item.delivered`). -/
def notDeliveredItems (mealPlans : List MealPlan) : List SummaryEntry :=
  mealPlans.flatMap fun plan =>
    (plan.items.filter fun item => !item.delivered).map (summaryEntry plan)

/-- The number of items across all plans. -/
def totalItemCount (mealPlans : List MealPlan) : Nat :=
  (mealPlans.map fun plan => plan.items.length).sum

theorem filtered_summary_length (p : MealPlanItem → Bool) (mealPlans : List MealPlan) :
    (mealPlans.flatMap fun plan =>
        (plan.items.filter p).map (summaryEntry plan)).length +
      (mealPlans.flatMap fun plan =>
        (plan.items.filter fun i => !p i).map (summaryEntry plan)).length
      = totalItemCount mealPlans := by
  induction mealPlans with
  | nil => rfl
  | cons plan rest ih =>
    simp only [List.flatMap_cons, List.length_append, List.length_map, totalItemCount,
      List.map_cons, List.sum_cons] at *
    have h := List.length_eq_length_filter_add (l := plan.items) p
    omega

theorem summary_membership (p : MealPlanItem → Bool) (mealPlans : List MealPlan)
    (plan : MealPlan) (item : MealPlanItem) (hp : plan ∈ mealPlans)
    (hi : item ∈ plan.items) :
    summaryEntry plan item ∈ mealPlans.flatMap
      (fun pl => (pl.items.filter p).map (summaryEntry pl)) ∨
    summaryEntry plan item ∈ mealPlans.flatMap
      (fun pl => (pl.items.filter fun i => !p i).map (summaryEntry pl)) := by
  by_cases h : p item
  · left
    simp only [List.mem_flatMap]
    exact ⟨plan, hp, List.mem_map_of_mem _ (List.mem_filter.mpr ⟨hi, h⟩)⟩
  · right
    simp only [List.mem_flatMap]
    refine ⟨plan, hp, List.mem_map_of_mem _ (List.mem_filter.mpr ⟨hi, ?_⟩)⟩
    simpa using h

/-- C10: the dashboard summary partitions the items: every item's summary line
falls in `preparedItems` or `unpreparedItems`, and in `deliveredItems` or
`notDeliveredItems`, and the prepared/unprepared (resp. delivered/not-delivered)
counts sum to the total number of items across all plans. -/
theorem C10_dashboard_summary_partitions (mealPlans : List MealPlan) :
    (preparedItems mealPlans).length + (unpreparedItems mealPlans).length
        = totalItemCount mealPlans ∧
    (deliveredItems mealPlans).length + (notDeliveredItems mealPlans).length
        = totalItemCount mealPlans ∧
    ∀ plan ∈ mealPlans, ∀ item ∈ plan.items,
      (summaryEntry plan item ∈ preparedItems mealPlans ∨
        summaryEntry plan item ∈ unpreparedItems mealPlans) ∧
      (summaryEntry plan item ∈ deliveredItems mealPlans ∨
        summaryEntry plan item ∈ notDeliveredItems mealPlans) := by
  refine ⟨filtered_summary_length (fun i => i.prepared) mealPlans,
    filtered_summary_length (fun i => i.delivered) mealPlans, ?_⟩
  intro plan hp item hi
  exact ⟨summary_membership (fun i => i.prepared) mealPlans plan item hp hi,
    summary_membership (fun i => i.delivered) mealPlans plan item hp hi⟩

/-- An entry of the kitchen dashboard's time view: an item annotated with the
patient's name and hospital id (`groupedMealItems` pushes
`{ ...item, patientName, patientHospitalId }`). -/
structure GroupedItem where
  item : MealPlanItem
  patientName : String
  patientHospitalId : String
deriving Repr, DecidableEq

/-- The `groupedMealItems` grouping of KitchenDashboard, restricted to one meal
category: plans whose `patient` is null are skipped entirely; the items of the
other plans are grouped under their `meal_category`. -/
def groupedMealItems (mealPlans : List MealPlan) (category : String) :
    List GroupedItem :=
  mealPlans.flatMap fun plan =>
    match plan.patient with
    | none => []
    | some p =>
        (plan.items.filter fun item => item.meal_category = category).map
          fun item =>
            { item := item, patientName := p.name, patientHospitalId := p.hospital_id }

/-- C9: an item appears in the time view's group for `category` exactly when it
belongs to a plan with a non-null patient and its `meal_category` is that
category; items of plans whose patient is null appear in no group. -/
theorem C9_timeView_includes_iff_patient_nonnull (mealPlans : List MealPlan)
    (category : String) (i : MealPlanItem) :
    (∃ g ∈ groupedMealItems mealPlans category, g.item = i) ↔
    ∃ plan ∈ mealPlans, plan.patient.isSome ∧ i ∈ plan.items ∧
      i.meal_category = category := by
  simp only [groupedMealItems, List.mem_flatMap]
  constructor
  · rintro ⟨g, ⟨plan, hplan, hg⟩, rfl⟩
    refine ⟨plan, hplan, ?_⟩
    cases hpat : plan.patient with
    | none => rw [hpat] at hg; simp at hg
    | some p =>
      rw [hpat] at hg
      simp only [List.mem_map, List.mem_filter] at hg
      obtain ⟨item, ⟨hmem, hcat⟩, heq⟩ := hg
      cases heq
      exact ⟨rfl, hmem, of_decide_eq_true hcat⟩
  · rintro ⟨plan, hplan, hsome, hmem, hcat⟩
    cases hpat : plan.patient with
    | none => rw [hpat] at hsome; simp at hsome
    | some p =>
      refine ⟨{ item := i, patientName := p.name, patientHospitalId := p.hospital_id },
        ⟨plan, hplan, ?_⟩, rfl⟩
      rw [hpat]
      simp only [List.mem_map, List.mem_filter]
      exact ⟨i, ⟨hmem, by simpa using hcat⟩, rfl⟩

/-- A selected food line of App.tsx (`SelectedFood`): a food name with a
serving-size multiplier. -/
structure SelectedFood where
  food_name : String
  quantity : ℚ
deriving Repr, DecidableEq

/-- The body of `handleFoodQuantityChange`'s state update: find the entry by
`food_name`; replace its quantity, remove it when the new quantity is 0, or
append a new entry when none exists and the quantity is positive. -/
def setQuantity (foodName : String) (qty : ℚ) :
    List SelectedFood → List SelectedFood
  | [] => if 0 < qty then [{ food_name := foodName, quantity := qty }] else []
  | it :: rest =>
      if it.food_name = foodName then
        if qty = 0 then rest else { it with quantity := qty } :: rest
      else it :: setQuantity foodName qty rest

/-- `handleFoodQuantityChange` of App.tsx: the quantity input is parsed with
`parseFloat` (a non-numeric input is `none`); `NaN` and negative values are
ignored, otherwise the selected-foods list is updated via `setQuantity`. -/
def handleFoodQuantityChange (foodName : String) (quantityInput : Option ℚ)
    (prevSelectedFoods : List SelectedFood) : List SelectedFood :=
  match quantityInput with
  | none => prevSelectedFoods
  | some qty =>
      if qty < 0 then prevSelectedFoods
      else setQuantity foodName qty prevSelectedFoods

/-- The meal-plan editor state of App.tsx (`MealPlanState`): one list of
selected foods per meal category, embedded as an association list in category
order. -/
abbrev MealPlanState : Type := List (String × List SelectedFood)

/-- The fixed category list of App.tsx (`mealCategories`). -/
def mealCategories : List String :=
  ["Breakfast", "Lunch", "Dinner", "Morning Snacks", "Evening Snacks"]

/-- The initial `mealPlan` state: all five categories empty. -/
def initialMealPlan : MealPlanState :=
  [("Breakfast", []), ("Lunch", []), ("Dinner", []),
   ("Morning Snacks", []), ("Evening Snacks", [])]

/-- The per-category update of `handleAddToMeal`: replace the quantity of the
first entry with the given food name, else push a new entry. -/
def upsertFood (foodName : String) (quantity : ℚ) :
    List SelectedFood → List SelectedFood
  | [] => [{ food_name := foodName, quantity := quantity }]
  | it :: rest =>
      if it.food_name = foodName then { it with quantity := quantity } :: rest
      else it :: upsertFood foodName quantity rest

/-- `handleAddToMeal` of App.tsx: a quantity ≤ 0 is rejected with a message and
the state is unchanged; otherwise the named category's list gets the food
upserted. -/
def handleAddToMeal (foodName : String) (quantity : ℚ) (mealCategory : String)
    (prevMealPlan : MealPlanState) : MealPlanState :=
  if quantity ≤ 0 then prevMealPlan
  else prevMealPlan.map fun e =>
    if e.1 = mealCategory then (e.1, upsertFood foodName quantity e.2) else e

/-- The selected-foods states reachable through `handleFoodQuantityChange`
starting from the empty selection. -/
inductive ReachableSel : List SelectedFood → Prop where
  | init : ReachableSel []
  | step (foodName : String) (q : Option ℚ) {l : List SelectedFood} :
      ReachableSel l → ReachableSel (handleFoodQuantityChange foodName q l)

/-- The meal-plan states reachable through `handleAddToMeal` starting from the
initial (all-empty) plan. -/
inductive ReachablePlan : MealPlanState → Prop where
  | init : ReachablePlan initialMealPlan
  | step (foodName : String) (q : ℚ) (cat : String) {mp : MealPlanState} :
      ReachablePlan mp → ReachablePlan (handleAddToMeal foodName q cat mp)

theorem setQuantity_name_origin (foodName : String) (qty : ℚ)
    (l : List SelectedFood) (it : SelectedFood)
    (h : it ∈ setQuantity foodName qty l) : it ∈ l ∨ it.food_name = foodName := by
  induction l with
  | nil =>
    simp only [setQuantity] at h
    split at h
    · simp only [List.mem_singleton] at h
      exact Or.inr (by rw [h])
    · simp at h
  | cons hd rest ih =>
    simp only [setQuantity] at h
    split at h
    · rename_i heq
      split at h
      · exact Or.inl (List.mem_cons_of_mem hd h)
      · rcases List.mem_cons.mp h with h1 | h1
        · exact Or.inr (by rw [h1]; exact heq)
        · exact Or.inl (List.mem_cons_of_mem hd h1)
    · rcases List.mem_cons.mp h with h1 | h1
      · exact Or.inl (h1 ▸ List.mem_cons_self hd rest)
      · rcases ih h1 with h2 | h2
        · exact Or.inl (List.mem_cons_of_mem hd h2)
        · exact Or.inr h2

theorem setQuantity_names_nodup (foodName : String) (qty : ℚ)
    (l : List SelectedFood) (h : (l.map fun it => it.food_name).Nodup) :
    ((setQuantity foodName qty l).map fun it => it.food_name).Nodup := by
  induction l with
  | nil =>
    simp only [setQuantity]
    split <;> simp
  | cons hd rest ih =>
    simp only [List.map_cons, List.nodup_cons] at h
    simp only [setQuantity]
    split
    · split
      · exact h.2
      · simp only [List.map_cons, List.nodup_cons]
        exact h
    · rename_i hne
      simp only [List.map_cons, List.nodup_cons]
      refine ⟨?_, ih h.2⟩
      intro hmem
      simp only [List.mem_map] at hmem
      obtain ⟨it, hit, hname⟩ := hmem
      rcases setQuantity_name_origin foodName qty rest it hit with h1 | h1
      · exact h.1 (hname ▸ List.mem_map_of_mem (fun it => it.food_name) h1)
      · exact hne (by rw [← hname, h1])

theorem setQuantity_quantities_pos (foodName : String) (qty : ℚ)
    (l : List SelectedFood) (hq : 0 ≤ qty)
    (h : ∀ it ∈ l, 0 < it.quantity) :
    ∀ it ∈ setQuantity foodName qty l, 0 < it.quantity := by
  induction l with
  | nil =>
    intro it hit
    simp only [setQuantity] at hit
    split at hit
    · rename_i hpos
      simp only [List.mem_singleton] at hit
      rw [hit]
      exact hpos
    · simp at hit
  | cons hd rest ih =>
    intro it hit
    simp only [setQuantity] at hit
    split at hit
    · split at hit
      · exact h it (List.mem_cons_of_mem hd hit)
      · rename_i hqz
        rcases List.mem_cons.mp hit with h1 | h1
        · rw [h1]
          exact lt_of_le_of_ne hq (Ne.symm hqz)
        · exact h it (List.mem_cons_of_mem hd h1)
    · rcases List.mem_cons.mp hit with h1 | h1
      · exact h it (h1 ▸ List.mem_cons_self hd rest)
      · exact ih (fun x hx => h x (List.mem_cons_of_mem hd hx)) it h1

theorem setQuantity_zero_removes (foodName : String) (l : List SelectedFood)
    (hnd : (l.map fun it => it.food_name).Nodup) :
    ∀ it ∈ setQuantity foodName 0 l, it.food_name ≠ foodName := by
  induction l with
  | nil =>
    intro it hit
    simp [setQuantity] at hit
  | cons hd rest ih =>
    simp only [List.map_cons, List.nodup_cons] at hnd
    intro it hit
    simp only [setQuantity, if_pos rfl] at hit
    split at hit
    · rename_i heq
      intro hname
      exact hnd.1 (heq ▸ hname ▸ List.mem_map_of_mem (fun x => x.food_name) hit)
    · rename_i hne
      rcases List.mem_cons.mp hit with h1 | h1
      · rw [h1]; exact hne
      · exact ih hnd.2 it h1

/-- The invariant of the selected-foods list: positive quantities, and food
names appear at most once. -/
abbrev SelInv (l : List SelectedFood) : Prop :=
  (∀ it ∈ l, 0 < it.quantity) ∧ (l.map fun it => it.food_name).Nodup

theorem handleFoodQuantityChange_preserves_inv (foodName : String)
    (q : Option ℚ) (l : List SelectedFood) (h : SelInv l) :
    SelInv (handleFoodQuantityChange foodName q l) := by
  match q with
  | none => exact h
  | some qty =>
    simp only [handleFoodQuantityChange]
    split
    · exact h
    · rename_i hq
      push_neg at hq
      exact ⟨setQuantity_quantities_pos foodName qty l hq h.1,
        setQuantity_names_nodup foodName qty l h.2⟩

theorem reachableSel_inv (l : List SelectedFood) (h : ReachableSel l) : SelInv l := by
  induction h with
  | init => exact ⟨by simp, by simp⟩
  | step foodName q hr ih => exact handleFoodQuantityChange_preserves_inv _ _ _ ih

theorem upsertFood_quantities_pos (foodName : String) (q : ℚ)
    (l : List SelectedFood) (hq : 0 < q) (h : ∀ it ∈ l, 0 < it.quantity) :
    ∀ it ∈ upsertFood foodName q l, 0 < it.quantity := by
  induction l with
  | nil =>
    intro it hit
    simp only [upsertFood, List.mem_singleton] at hit
    rw [hit]; exact hq
  | cons hd rest ih =>
    intro it hit
    simp only [upsertFood] at hit
    split at hit
    · rcases List.mem_cons.mp hit with h1 | h1
      · rw [h1]; exact hq
      · exact h it (List.mem_cons_of_mem hd h1)
    · rcases List.mem_cons.mp hit with h1 | h1
      · exact h it (h1 ▸ List.mem_cons_self hd rest)
      · exact ih (fun x hx => h x (List.mem_cons_of_mem hd hx)) it h1

/-- The invariant of the meal-plan editor state: every entry of every category
has a positive quantity. -/
abbrev PlanInv (mp : MealPlanState) : Prop :=
  ∀ e ∈ mp, ∀ it ∈ e.2, 0 < it.quantity

theorem handleAddToMeal_preserves_inv (foodName : String) (q : ℚ) (cat : String)
    (mp : MealPlanState) (h : PlanInv mp) :
    PlanInv (handleAddToMeal foodName q cat mp) := by
  simp only [handleAddToMeal]
  split
  · exact h
  · rename_i hq
    push_neg at hq
    intro e he
    simp only [List.mem_map] at he
    obtain ⟨e0, he0, heq⟩ := he
    by_cases hc : e0.1 = cat
    · rw [if_pos hc] at heq
      rw [← heq]
      exact upsertFood_quantities_pos foodName q e0.2 hq (h e0 he0)
    · rw [if_neg hc] at heq
      rw [← heq]
      exact h e0 he0

theorem reachablePlan_inv (mp : MealPlanState) (h : ReachablePlan mp) : PlanInv mp := by
  induction h with
  | init =>
    intro e he it hit
    simp only [initialMealPlan, List.mem_cons, List.not_mem_nil, or_false] at he
    rcases he with h | h | h | h | h <;> rw [h] at hit <;> simp at hit
  | step foodName q cat hr ih => exact handleAddToMeal_preserves_inv _ _ _ _ ih

/-- C6: in every selection state reachable through `handleFoodQuantityChange`
and every plan state reachable through `handleAddToMeal`, all quantities are
strictly positive; a non-numeric (`NaN`) or negative input leaves the state
unchanged, a quantity of 0 removes the entry, and `handleAddToMeal` rejects
quantities ≤ 0. -/
theorem C6_quantities_strictly_positive (l : List SelectedFood)
    (mp : MealPlanState) (foodName : String) (qq : ℚ) (cat : String) :
    (ReachableSel l → ∀ it ∈ l, 0 < it.quantity) ∧
    (ReachablePlan mp → ∀ e ∈ mp, ∀ it ∈ e.2, 0 < it.quantity) ∧
    handleFoodQuantityChange foodName none l = l ∧
    (qq < 0 → handleFoodQuantityChange foodName (some qq) l = l) ∧
    (qq ≤ 0 → handleAddToMeal foodName qq cat mp = mp) ∧
    (ReachableSel l →
      ∀ it ∈ handleFoodQuantityChange foodName (some 0) l, it.food_name ≠ foodName) := by
  refine ⟨fun h => (reachableSel_inv l h).1, fun h => reachablePlan_inv mp h, rfl,
    ?_, ?_, ?_⟩
  · intro hneg
    simp [handleFoodQuantityChange, if_pos hneg]
  · intro hle
    simp [handleAddToMeal, if_pos hle]
  · intro h
    have hnd := (reachableSel_inv l h).2
    intro it hit
    simp only [handleFoodQuantityChange] at hit
    rw [if_neg (by norm_num)] at hit
    exact setQuantity_zero_removes foodName l hnd it hit

/-- C6 witness: a fractional quantity (1/2) is accepted, a later 0 removes the
entry, and a plan state built by `handleAddToMeal` has positive quantities. -/
theorem C6_quantities_strictly_positive_witness :
    (∀ it ∈ handleFoodQuantityChange "Rice" (some (1/2)) [], 0 < it.quantity) ∧
    (∀ it ∈ handleFoodQuantityChange "Rice" (some 0)
        (handleFoodQuantityChange "Rice" (some (1/2)) []), it.food_name ≠ "Rice") ∧
    (∀ e ∈ handleAddToMeal "Dal" (3/2) "Lunch" initialMealPlan,
      ∀ it ∈ e.2, 0 < it.quantity) ∧
    handleFoodQuantityChange "Soup" (some (-3)) [] = [] := by
  have h1 : ReachableSel (handleFoodQuantityChange "Rice" (some (1/2)) []) :=
    ReachableSel.step "Rice" (some (1/2)) ReachableSel.init
  have h2 : ReachableSel (handleFoodQuantityChange "Rice" (some 0)
      (handleFoodQuantityChange "Rice" (some (1/2)) [])) :=
    ReachableSel.step "Rice" (some 0) h1
  have h3 : ReachablePlan (handleAddToMeal "Dal" (3/2) "Lunch" initialMealPlan) :=
    ReachablePlan.step "Dal" (3/2) "Lunch" ReachablePlan.init
  refine ⟨(C6_quantities_strictly_positive _ initialMealPlan "Rice" 0 "Lunch").1 h1,
    (C6_quantities_strictly_positive _ initialMealPlan "Rice" 0 "Lunch").2.2.2.2.2 h1,
    (C6_quantities_strictly_positive [] _ "Dal" 0 "Lunch").2.1 h3,
    (C6_quantities_strictly_positive [] initialMealPlan "Soup" (-3) "Lunch").2.2.2.1
      (by norm_num)⟩

/-- The creation request `handleSendToKitchen` POSTs to `/send-to-kitchen`:
`{ patient_id: selectedPatient, meal_plan: mealPlan }`. -/
structure KitchenRequest where
  patient_id : Nat
  meal_plan : MealPlanState
deriving Repr, DecidableEq

/-- `handleSendToKitchen` of App.tsx: when every category of the meal plan is
empty, or when no patient is selected, no request is issued (a message is shown
instead); otherwise the whole plan is sent with the selected patient's id. -/
def handleSendToKitchen (mealPlan : MealPlanState) (selectedPatient : Option Nat) :
    Option KitchenRequest :=
  if mealPlan.all fun e => e.2.isEmpty then none
  else
    match selectedPatient with
    | none => none
    | some pid => some { patient_id := pid, meal_plan := mealPlan }

/-- A plan state with one Breakfast item and the other categories empty. -/
def breakfastOnlyPlan : MealPlanState :=
  [("Breakfast", [{ food_name := "Rice", quantity := 2 }]), ("Lunch", []),
   ("Dinner", []), ("Morning Snacks", []), ("Evening Snacks", [])]

/-- C5 counterexample: a plan state with a non-empty category for which no
creation request is issued — no patient is selected, so `handleSendToKitchen`
returns without POSTing, contrary to the claim that every plan with a non-empty
category is created. -/
theorem C5_nonempty_plan_not_sent_counterexample :
    handleSendToKitchen breakfastOnlyPlan none = none := by
  rfl

/-- C5 (amended): `handleSendToKitchen` issues no creation request when every
category is empty, whatever patient is selected; when some category is
non-empty and a patient is selected, the request carries the whole plan with
all of its items. -/
theorem C5_sendToKitchen_empty_guard (mp : MealPlanState)
    (selectedPatient : Option Nat) (pid : Nat) :
    ((mp.all fun e => e.2.isEmpty) = true →
      handleSendToKitchen mp selectedPatient = none) ∧
    ((mp.all fun e => e.2.isEmpty) = false →
      handleSendToKitchen mp (some pid)
        = some { patient_id := pid, meal_plan := mp }) := by
  constructor
  · intro h
    simp [handleSendToKitchen, h]
  · intro h
    simp [handleSendToKitchen, h]

/-- C5 witness: the all-empty initial plan yields no request even with a
patient selected; the Breakfast-only plan with patient 1 is sent whole. -/
theorem C5_sendToKitchen_empty_guard_witness :
    handleSendToKitchen initialMealPlan (some 1) = none ∧
    handleSendToKitchen breakfastOnlyPlan (some 1)
      = some { patient_id := 1, meal_plan := breakfastOnlyPlan } := by
  exact ⟨(C5_sendToKitchen_empty_guard initialMealPlan (some 1) 1).1 rfl,
    (C5_sendToKitchen_empty_guard breakfastOnlyPlan (some 1) 1).2 rfl⟩

/-- What a cell of the results tables shows: a formatted number (the numeric
payload of `toFixed(2)`) or the text `N/A`. -/
inductive RenderedCell where
  | number (value : ℚ)
  | na
deriving Repr, DecidableEq

/-- The Amount cell of the Total Nutrients table:
`amount !== null ? amount.toFixed(2) : 'N/A'`. -/
def renderAmount (amount : Option ℚ) : RenderedCell :=
  match amount with
  | some a => .number a
  | none => .na

/-- The Difference cell of the Deficit/Excess table:
`diff !== null ? diff.toFixed(2) : 'N/A'`. -/
def renderDifference (diff : Option ℚ) : RenderedCell :=
  match diff with
  | some d => .number d
  | none => .na

/-- The Status cell of the Deficit/Excess table:
`diff !== null ? (diff < 0 ? 'Deficit' : (diff > 0 ? 'Excess' : 'Meets Target')) : 'N/A'`. -/
def classifyStatus (diff : Option ℚ) : String :=
  match diff with
  | some d => if d < 0 then "Deficit" else if 0 < d then "Excess" else "Meets Target"
  | none => "N/A"

/-- C3: with a non-null comparison value the status is Deficit exactly for
negative values, Excess exactly for positive ones and Meets Target exactly at
zero (no epsilon band); a null comparison renders N/A and never one of the
three numeric classes. -/
theorem C3_status_classification (d : ℚ) :
    (classifyStatus (some d) = "Deficit" ↔ d < 0) ∧
    (classifyStatus (some d) = "Excess" ↔ 0 < d) ∧
    (classifyStatus (some d) = "Meets Target" ↔ d = 0) ∧
    classifyStatus none = "N/A" ∧
    classifyStatus none ≠ "Deficit" ∧
    classifyStatus none ≠ "Excess" ∧
    classifyStatus none ≠ "Meets Target" := by
  refine ⟨?_, ?_, ?_, rfl, by decide, by decide, by decide⟩
  · constructor
    · intro h
      by_contra hneg
      simp only [classifyStatus, if_neg hneg] at h
      split at h <;> simp_all
    · intro h
      simp [classifyStatus, if_pos h]
  · constructor
    · intro h
      rcases lt_trichotomy d 0 with h1 | h1 | h1
      · simp only [classifyStatus, if_pos h1] at h
        exact absurd h (by decide)
      · rw [h1] at h
        simp only [classifyStatus, lt_irrefl, if_neg (lt_irrefl (0 : ℚ))] at h
        exact absurd h (by decide)
      · exact h1
    · intro h
      simp [classifyStatus, if_neg (not_lt.mpr (le_of_lt h)), if_pos h]
  · constructor
    · intro h
      rcases lt_trichotomy d 0 with h1 | h1 | h1
      · simp only [classifyStatus, if_pos h1] at h
        exact absurd h (by decide)
      · exact h1
      · simp only [classifyStatus, if_neg (not_lt.mpr (le_of_lt h1)), if_pos h1] at h
        exact absurd h (by decide)
    · intro h
      rw [h]
      simp [classifyStatus]

/-- C4: a null nutrient total or comparison value is preserved to display: the
Amount and Difference cells read N/A and the Status cell reads N/A; a null is
never rendered as a number (in particular not as 0), while a non-null value is
rendered as that number. -/
theorem C4_null_preserved_to_display (q : ℚ) :
    renderAmount none = RenderedCell.na ∧
    renderAmount (some q) = RenderedCell.number q ∧
    renderDifference none = RenderedCell.na ∧
    classifyStatus none = "N/A" ∧
    RenderedCell.na ≠ RenderedCell.number q ∧
    RenderedCell.na ≠ RenderedCell.number 0 := by
  exact ⟨rfl, rfl, rfl, rfl, by simp, by simp⟩

/-- A catalog food record: name, serving-size label, and an open string-keyed
nutrient map where an absent nutrient means unknown (never zero). -/
structure FoodRecord where
  name : String
  serving_size : String
  nutrients : List (String × ℚ)
deriving Repr, DecidableEq

/-- The aggregation failure: the offending food name. -/
structure FoodNotFoundError where
  foodName : String
deriving Repr, DecidableEq

/-- A resolved menu line echoed back for audit display. -/
structure ResolvedLine where
  food_name : String
  quantity : ℚ
  serving_size : String
deriving Repr, DecidableEq

/-- The aggregation result: the resolved menu and the per-nutrient totals,
`none` when a total cannot be computed. -/
structure AggResult where
  selected_menu : List ResolvedLine
  total_nutrients : List (String × Option ℚ)
deriving Repr, DecidableEq

/-- Lower-casing for case-insensitive name comparison, written over the
character list so it evaluates. -/
def lowerName (s : String) : String :=
  String.mk (s.data.map Char.toLower)

/-- Modelled from the spec: the Catalog Store lookup `getFood(name)` of the
backend (not under src/) — case-insensitive on the food name, preserving the
record's original casing. -/
def getFood (catalog : List FoodRecord) (name : String) : Option FoodRecord :=
  catalog.find? fun f => lowerName f.name = lowerName name

/-- A food's per-serving amount for one nutrient; `none` when the food has no
value for it (unknown, distinct from zero). -/
def lookupNutrient (f : FoodRecord) (nutrient : String) : Option ℚ :=
  (f.nutrients.find? fun p => p.1 = nutrient).map Prod.snd

/-- Modelled from the spec: the Aggregator's resolution pass of the backend
(not under src/) — each menu line is resolved against the catalog, and the
first unresolvable name fails the entire call with `FoodNotFoundError`. -/
def resolveMenu (catalog : List FoodRecord) :
    List SelectedFood → Except FoodNotFoundError (List (FoodRecord × ℚ))
  | [] => .ok []
  | sf :: rest =>
      match getFood catalog sf.food_name with
      | none => .error { foodName := sf.food_name }
      | some f => (resolveMenu catalog rest).map fun r => (f, sf.quantity) :: r

/-- Modelled from the spec: a nutrient total is the sum of the per-serving
amounts weighted by quantity; one unknown contribution makes the whole total
unknown (`none`), never zero. -/
def totalFor (resolved : List (FoodRecord × ℚ)) (nutrient : String) : Option ℚ :=
  resolved.foldr
    (fun fq acc =>
      match lookupNutrient fq.1 nutrient, acc with
      | some v, some s => some (v * fq.2 + s)
      | _, _ => none)
    (some 0)

/-- The nutrient names appearing across the resolved foods. -/
def nutrientNames (foods : List FoodRecord) : List String :=
  (foods.flatMap fun f => f.nutrients.map Prod.fst).dedup

/-- Modelled from the spec: `aggregate(menu)` of the backend
`/calculate-nutrition` handler (not under src/) — resolve every line or fail
whole with `FoodNotFoundError`, echo the resolved lines, and total each
nutrient with unknown-dominance. -/
def aggregate (catalog : List FoodRecord) (menu : List SelectedFood) :
    Except FoodNotFoundError AggResult :=
  (resolveMenu catalog menu).map fun resolved =>
    { selected_menu := resolved.map fun fq =>
        { food_name := fq.1.name, quantity := fq.2, serving_size := fq.1.serving_size },
      total_nutrients :=
        (nutrientNames (resolved.map Prod.fst)).map fun n => (n, totalFor resolved n) }

/-- The `calculationResult` state update of `handleCalculateNutrition` in
App.tsx: an empty menu or empty profile name returns early keeping the previous
result; a successful response replaces it; an error response clears it
(`setCalculationResult(null)`). -/
def handleCalculateNutrition (catalog : List FoodRecord)
    (selectedFoods : List SelectedFood) (selectedRdaProfile : String)
    (prevResult : Option AggResult) : Option AggResult :=
  if selectedFoods.isEmpty then prevResult
  else if selectedRdaProfile = "" then prevResult
  else
    match aggregate catalog selectedFoods with
    | .ok r => some r
    | .error _ => none

theorem resolveMenu_fails_of_missing (catalog : List FoodRecord)
    (menu : List SelectedFood) (sf : SelectedFood) (hmem : sf ∈ menu)
    (hmiss : getFood catalog sf.food_name = none) :
    ∃ name, resolveMenu catalog menu = .error { foodName := name } ∧
      getFood catalog name = none ∧ ∃ sf2 ∈ menu, sf2.food_name = name := by
  induction menu with
  | nil => simp at hmem
  | cons hd rest ih =>
    rcases List.mem_cons.mp hmem with h1 | h1
    · subst h1
      refine ⟨sf.food_name, ?_, hmiss, sf, List.mem_cons_self sf rest, rfl⟩
      simp [resolveMenu, hmiss]
    · cases hf : getFood catalog hd.food_name with
      | none =>
        exact ⟨hd.food_name, by simp [resolveMenu, hf], hf,
          hd, List.mem_cons_self hd rest, rfl⟩
      | some f =>
        obtain ⟨name, herr, hnone, sf2, hsf2, hname⟩ := ih h1
        refine ⟨name, ?_, hnone, sf2, List.mem_cons_of_mem hd hsf2, hname⟩
        simp [resolveMenu, hf, herr, Except.map]

/-- C2: a menu naming a food absent from the catalog makes the whole
aggregation fail with `FoodNotFoundError` carrying an unresolvable food name of
the menu, and the caller's result state is cleared — no partial totals are
returned or retained. -/
theorem C2_missing_food_fails_whole_call (catalog : List FoodRecord)
    (menu : List SelectedFood) (profile : String) (prev : Option AggResult)
    (sf : SelectedFood) (hmem : sf ∈ menu)
    (hmiss : getFood catalog sf.food_name = none) (hprof : profile ≠ "") :
    (∃ name, aggregate catalog menu = .error { foodName := name } ∧
      getFood catalog name = none ∧ ∃ sf2 ∈ menu, sf2.food_name = name) ∧
    handleCalculateNutrition catalog menu profile prev = none := by
  obtain ⟨name, herr, hnone, hsf2⟩ := resolveMenu_fails_of_missing catalog menu sf hmem hmiss
  have hagg : aggregate catalog menu = .error { foodName := name } := by
    simp [aggregate, herr, Except.map]
  refine ⟨⟨name, hagg, hnone, hsf2⟩, ?_⟩
  have hne : menu.isEmpty = false := by
    cases menu with
    | nil => simp at hmem
    | cons a b => rfl
  simp [handleCalculateNutrition, hne, hprof, hagg]

/-- The demonstration catalog: Rice and Dal with complete calorie/protein data. -/
def demoCatalog : List FoodRecord :=
  [{ name := "Rice", serving_size := "1 cup",
     nutrients := [("calories", 200), ("protein", 4)] },
   { name := "Dal", serving_size := "1 bowl",
     nutrients := [("calories", 150), ("protein", 9)] }]

/-- C2 witness: a menu containing "Soup", absent from the demonstration
catalog, fails whole with `FoodNotFoundError "Soup"` and clears a previously
held result. -/
theorem C2_missing_food_fails_whole_call_witness :
    (∃ name, aggregate demoCatalog [{ food_name := "Soup", quantity := 1 }]
        = .error { foodName := name } ∧
      getFood demoCatalog name = none ∧
      ∃ sf2 ∈ [({ food_name := "Soup", quantity := 1 } : SelectedFood)],
        sf2.food_name = name) ∧
    handleCalculateNutrition demoCatalog [{ food_name := "Soup", quantity := 1 }]
      "Adult-Male" (some { selected_menu := [], total_nutrients := [] }) = none := by
  exact C2_missing_food_fails_whole_call demoCatalog
    [{ food_name := "Soup", quantity := 1 }] "Adult-Male"
    (some { selected_menu := [], total_nutrients := [] })
    { food_name := "Soup", quantity := 1 } (List.mem_singleton.mpr rfl)
    (by rfl) (by decide)

/-- Doubling every quantity of a menu. -/
def doubleQuantities (menu : List SelectedFood) : List SelectedFood :=
  menu.map fun sf => { sf with quantity := 2 * sf.quantity }

theorem resolveMenu_doubleQuantities (catalog : List FoodRecord)
    (menu : List SelectedFood) :
    resolveMenu catalog (doubleQuantities menu)
      = (resolveMenu catalog menu).map (List.map fun fq => (fq.1, 2 * fq.2)) := by
  induction menu with
  | nil => rfl
  | cons sf rest ih =>
    simp only [doubleQuantities, List.map_cons, resolveMenu] at *
    cases hf : getFood catalog sf.food_name with
    | none => rfl
    | some f =>
      rw [ih]
      cases resolveMenu catalog rest <;> rfl

theorem totalFor_cons (fq : FoodRecord × ℚ) (l : List (FoodRecord × ℚ))
    (nutrient : String) :
    totalFor (fq :: l) nutrient
      = match lookupNutrient fq.1 nutrient, totalFor l nutrient with
        | some v, some s => some (v * fq.2 + s)
        | _, _ => none := rfl

theorem totalFor_doubleQuantities (resolved : List (FoodRecord × ℚ))
    (nutrient : String) :
    totalFor (resolved.map fun fq => (fq.1, 2 * fq.2)) nutrient
      = (totalFor resolved nutrient).map fun v => 2 * v := by
  induction resolved with
  | nil =>
    simp only [List.map_nil, totalFor, List.foldr_nil, Option.map_some]
    norm_num
  | cons fq rest ih =>
    rw [List.map_cons, totalFor_cons, totalFor_cons, ih]
    cases lookupNutrient fq.1 nutrient with
    | none => cases totalFor rest nutrient <;> rfl
    | some v =>
      cases totalFor rest nutrient with
      | none => rfl
      | some s =>
        show some (v * (2 * fq.2) + 2 * s) = Option.map _ (some (v * fq.2 + s))
        rw [Option.map]
        congr 1
        ring

theorem totalFor_isSome_of_complete (resolved : List (FoodRecord × ℚ))
    (nutrient : String)
    (h : ∀ fq ∈ resolved, (lookupNutrient fq.1 nutrient).isSome) :
    (totalFor resolved nutrient).isSome := by
  induction resolved with
  | nil => rfl
  | cons fq rest ih =>
    rw [totalFor_cons]
    have hhd := h fq (List.mem_cons_self fq rest)
    have hrest := ih fun x hx => h x (List.mem_cons_of_mem fq hx)
    cases hv : lookupNutrient fq.1 nutrient with
    | none => rw [hv] at hhd; simp at hhd
    | some v =>
      cases ht : totalFor rest nutrient with
      | none => rw [ht] at hrest; simp at hrest
      | some s => rfl

/-- C8: over a catalog in which every selected food resolves and carries a
known value for every nutrient of the result, doubling every quantity of the
menu doubles every nutrient total, and every total is known. -/
theorem C8_aggregate_linear (catalog : List FoodRecord) (menu : List SelectedFood)
    (resolved : List (FoodRecord × ℚ))
    (hres : resolveMenu catalog menu = .ok resolved)
    (hcomplete : ∀ fq ∈ resolved, ∀ n ∈ nutrientNames (resolved.map Prod.fst),
      (lookupNutrient fq.1 n).isSome) :
    ∃ r r2, aggregate catalog menu = .ok r ∧
      aggregate catalog (doubleQuantities menu) = .ok r2 ∧
      r2.total_nutrients
        = r.total_nutrients.map (fun p => (p.1, p.2.map fun v => 2 * v)) ∧
      ∀ p ∈ r.total_nutrients, p.2.isSome := by
  have hfst : (resolved.map fun fq => ((fq.1 : FoodRecord), 2 * fq.2)).map Prod.fst
      = resolved.map Prod.fst := by
    rw [List.map_map]
    rfl
  have h1 : aggregate catalog menu = .ok
      { selected_menu := resolved.map fun fq =>
          { food_name := fq.1.name, quantity := fq.2, serving_size := fq.1.serving_size },
        total_nutrients :=
          (nutrientNames (resolved.map Prod.fst)).map fun n => (n, totalFor resolved n) } := by
    simp [aggregate, hres, Except.map]
  have h2 : aggregate catalog (doubleQuantities menu) = .ok
      { selected_menu := (resolved.map fun fq => (fq.1, 2 * fq.2)).map fun fq =>
          { food_name := fq.1.name, quantity := fq.2, serving_size := fq.1.serving_size },
        total_nutrients :=
          (nutrientNames ((resolved.map fun fq => (fq.1, 2 * fq.2)).map Prod.fst)).map
            fun n => (n, totalFor (resolved.map fun fq => (fq.1, 2 * fq.2)) n) } := by
    simp [aggregate, resolveMenu_doubleQuantities, hres, Except.map]
  refine ⟨_, _, h1, h2, ?_, ?_⟩
  · simp only [hfst, List.map_map]
    apply List.map_congr_left
    intro n _
    simp [Function.comp, totalFor_doubleQuantities]
  · intro p hp
    simp only [List.mem_map] at hp
    obtain ⟨n, hn, hpn⟩ := hp
    rw [← hpn]
    exact totalFor_isSome_of_complete resolved n fun fq hfq =>
      hcomplete fq hfq n hn

/-- C8 witness: the Rice/Dal menu with complete data — doubling the quantities
doubles the calorie and protein totals. -/
theorem C8_aggregate_linear_witness :
    ∃ r r2,
      aggregate demoCatalog
          [{ food_name := "Rice", quantity := 2 }, { food_name := "Dal", quantity := 1 }]
        = .ok r ∧
      aggregate demoCatalog (doubleQuantities
          [{ food_name := "Rice", quantity := 2 }, { food_name := "Dal", quantity := 1 }])
        = .ok r2 ∧
      r2.total_nutrients
        = r.total_nutrients.map (fun p => (p.1, p.2.map fun v => 2 * v)) ∧
      ∀ p ∈ r.total_nutrients, p.2.isSome := by
  exact C8_aggregate_linear demoCatalog
    [{ food_name := "Rice", quantity := 2 }, { food_name := "Dal", quantity := 1 }]
    [({ name := "Rice", serving_size := "1 cup",
        nutrients := [("calories", 200), ("protein", 4)] }, 2),
     ({ name := "Dal", serving_size := "1 bowl",
        nutrients := [("calories", 150), ("protein", 9)] }, 1)]
    (by rfl) (by decide)
